import Mathlib

/-!
# Business-calendar and lead-follow-up core of the Imperial team app

Shallow embedding, in Lean, of the calendar and follow-up logic of the
TypeScript source, together with theorems checking the natural-language
specification against it.

Conventions of the embedding:
* absolute instants are milliseconds since the Unix epoch (`Int`), as in
  JavaScript `Date.getTime()`;
* civil dates are day numbers since 1970-01-01 or `CalDate` records,
  matching the `Y/M/D` fields JavaScript `Date` accessors expose;
* nullable columns are `Option`; the database rows each page selects are
  structures carrying exactly the fields the logic touches;
* JavaScript `Math.floor(a / b)` for a positive integer `b` is integer
  division `a / b` on `Int` (Euclidean division, which rounds toward
  negative infinity for positive divisors).
-/

namespace ImperialApp

/-! ### Definitions: the shallow embedding -/

/-- `MS_DAY = 1000 * 60 * 60 * 24` from src/app/leads/page.tsx. -/
def MS_DAY : Int := 86400000

/-- A civil calendar date: the `(getFullYear, getMonth + 1, getDate)` view of a
JavaScript `Date`, with months numbered 1–12. -/
structure CalDate where
  year : Int
  month : Int
  day : Int
deriving Repr, DecidableEq

/-- Gregorian leap-year rule (the rule the JavaScript `Date` calendar uses). -/
def isLeapYear (y : Int) : Bool :=
  (y % 4 == 0 && y % 100 != 0) || y % 400 == 0

/-- Number of days of month `m` (1–12) of year `y` in the proleptic Gregorian
calendar of JavaScript `Date`. -/
def daysInMonth (y m : Int) : Int :=
  if m = 2 then (if isLeapYear y then 29 else 28)
  else if m = 4 ∨ m = 6 ∨ m = 9 ∨ m = 11 then 30
  else 31

/-- A `CalDate` that denotes an actual calendar date. -/
def validDate (d : CalDate) : Prop :=
  1 ≤ d.month ∧ d.month ≤ 12 ∧ 1 ≤ d.day ∧ d.day ≤ daysInMonth d.year d.month

instance (d : CalDate) : Decidable (validDate d) := by
  unfold validDate; infer_instance

/-- Lexicographic order on calendar dates (chronological order). -/
def dateLT (a b : CalDate) : Prop :=
  a.year < b.year ∨
    (a.year = b.year ∧ (a.month < b.month ∨ (a.month = b.month ∧ a.day < b.day)))

/-- `businessMonthStart` from src/app/admin/kpi-templates/page.tsx (lines 68–79),
and equally the `start` computation of `businessMonthRangeISO` in
src/app/admin/hot-leads/page.tsx (lines 690–701): if the current day-of-month is
`>= 26` the business month starts on the 26th of the current calendar month,
otherwise on the 26th of the previous one.  `setMonth(getMonth() - 1)` /
`setFullYear(y, m - 1, 26)` roll January back to December of the previous year;
no day overflow can occur because the day is at most 25 there. -/
def businessMonthStart (d : CalDate) : CalDate :=
  if 26 ≤ d.day then ⟨d.year, d.month, 26⟩
  else if d.month = 1 then ⟨d.year - 1, 12, 26⟩
  else ⟨d.year, d.month - 1, 26⟩

/-- `businessMonthEndExclusive` from src/app/admin/kpi-templates/page.tsx
(lines 81–87) applied to a business-month start (whose day is always 26):
`setMonth(getMonth() + 1)` followed by `setDate(26)`, i.e. the 26th of the
following calendar month, December rolling over to January. -/
def businessMonthEndExclusive (s : CalDate) : CalDate :=
  if s.month = 12 then ⟨s.year + 1, 1, 26⟩ else ⟨s.year, s.month + 1, 26⟩

/-- Days since 1970-01-01 of a civil date: the standard civil-from-days
algorithm, modelling `Date.getTime() / MS_DAY` of the local midnight of the
date (all divisors are positive, so `/` is the floor division the algorithm
requires). -/
def epochDays (d : CalDate) : Int :=
  let y := if d.month ≤ 2 then d.year - 1 else d.year
  let mp := if d.month ≤ 2 then d.month + 9 else d.month - 3
  365 * y + y / 4 - y / 100 + y / 400 + (153 * mp + 2) / 5 + d.day - 1 - 719468

/-- `Date.getDay()` of the civil day number `r` (days since 1970-01-01, which
was a Thursday): 0 = Sunday, …, 6 = Saturday. -/
def jsGetDay (r : Int) : Int := (r + 4) % 7

/-- `startOfWeekISO_Melb` from src/app/admin/hot-leads/page.tsx (lines
1214–1221) and src/unnamed/part_002 (lines 85–92), on civil day numbers: it
reads `getDay()`, subtracts `diffToMon = (day + 6) % 7` days with `setDate`
(whose rollover is exactly day-number subtraction), and truncates to midnight. -/
def startOfWeekDays (r : Int) : Int := r - (jsGetDay r + 6) % 7

/-- `weeksInBusinessMonth` from src/app/admin/kpi-templates/page.tsx (lines
89–94): `Math.max(1, Math.round((end − start) / MS_DAY)) / 7`, as an exact
rational.  The millisecond difference of the two local midnights is a whole
number of days up to a DST hour, which the `Math.round` removes, so the day
count is the difference of the civil day numbers. -/
def weeksInBusinessMonth (d : CalDate) : ℚ :=
  let s := businessMonthStart d
  let e := businessMonthEndExclusive s
  ((max 1 (epochDays e - epochDays s) : ℤ) : ℚ) / 7

/-- `weeklyFromMonthly` from src/app/admin/kpi-templates/page.tsx (lines
97–102): `Math.ceil(monthly / weeks)`, and 0 for a non-positive input. -/
def weeklyFromMonthly (monthly : ℚ) (d : CalDate) : Int :=
  if monthly ≤ 0 then 0 else ⌈monthly / weeksInBusinessMonth d⌉

/-- `monthlyFromWeekly` from src/app/admin/kpi-templates/page.tsx (lines
105–109): `Math.round(weekly * weeks)`, and 0 for a non-positive input.
JavaScript `Math.round` is `⌊x + 1/2⌋`, which is Mathlib's `round`. -/
def monthlyFromWeekly (weekly : ℚ) (d : CalDate) : Int :=
  if weekly ≤ 0 then 0 else round (weekly * weeksInBusinessMonth d)

/-- `daysUntilDue` from src/app/leads/page.tsx (lines 61–65) and
src/unnamed/part_004 (lines 255–259): `Math.floor((due − today0) / MS_DAY)`,
where `today0` is the instant of the device-local midnight of the current day
(`startOfTodayLocal`) and `due` the follow-up instant. -/
def daysUntilDue (today0 due : Int) : Int := (due - today0) / MS_DAY

/-- Derived urgency classes of a scheduled follow-up (§4.2 of the spec). -/
inductive DueClass where
  | overdue
  | dueToday
  | dueInFuture
deriving Repr, DecidableEq

/-- The branch structure of `dueText` from src/app/leads/page.tsx (lines
67–71): negative days are overdue, zero is due today, positive is future. -/
def classifyDue (days : Int) : DueClass :=
  if days < 0 then DueClass.overdue
  else if days = 0 then DueClass.dueToday
  else DueClass.dueInFuture

/-- `dueText` from src/app/leads/page.tsx (lines 67–71). -/
def dueText (days : Int) : String :=
  if days < 0 then
    "Overdue by " ++ toString days.natAbs ++ " day" ++ (if days.natAbs = 1 then "" else "s")
  else if days = 0 then "Due today"
  else "Due in " ++ toString days ++ " day" ++ (if days = 1 then "" else "s")

/-- Local civil day number of an instant under the offset schedule `off`
(milliseconds added to UTC to obtain local clock time): the day count behind
the spec's `localDate` projection. -/
def localDayNumber (off : Int → Int) (t : Int) : Int := (t + off t) / MS_DAY

/-- The formula the specification prescribes for `daysUntilDue`:
`floor((dueLocalDate − todayLocalDate) / 1 day)`, i.e. the difference of the
local civil day numbers of the due instant and of the current instant. -/
def specDaysUntilDue (off : Int → Int) (due now : Int) : Int :=
  localDayNumber off due - localDayNumber off now

/-- A one-hour spring-forward offset schedule: UTC offset 0 before local
02:00 of the first modelled day and +1 h afterwards. -/
def dstShiftOffset (t : Int) : Int := if t < 7200000 then 0 else 3600000

/-- A row of the `meetings` table, carrying the union of the fields the
embedded pages select.  Nullable columns are `Option`; the non-null `string`
annotations on `booked_by_id`/`attended_by_id` in src/app/leads/page.tsx are
not database constraints — src/app/admin/hot-leads/page.tsx declares the same
columns nullable — so the embedding models them all as `Option`. -/
structure MeetingRow where
  id : String
  meeting_at : Int
  discarded_at : Option Int
  booked_by_id : Option String
  attended_by_id : Option String
  booked_calendar_user_id : Option String
  owner_id : Option String
  lead_score : Int
  showed_up : Bool
  moved_to_ss2 : Bool
  is_closed : Bool
deriving Repr, DecidableEq

/-- A row of the `meeting_followups` table joined with its meeting, as
selected by `load` in src/app/leads/page.tsx (lines 166–199). -/
structure FollowupRow where
  meeting_id : String
  owner_user_id : Option String
  last_followed_up_at : Option Int
  next_followup_at : Option Int
  meeting : Option MeetingRow
deriving Repr, DecidableEq

/-- `sortByPriority` from src/app/leads/page.tsx (lines 83–95) as a
three-valued comparator: rows without a due date sort last, then ascending
`daysUntilDue`, ties broken by the raw due timestamp. -/
def sortByPriorityCmp (today0 : Int) (a b : FollowupRow) : Int :=
  match a.next_followup_at, b.next_followup_at with
  | none, none => 0
  | none, some _ => 1
  | some _, none => -1
  | some ta, some tb =>
    let da := daysUntilDue today0 ta
    let db := daysUntilDue today0 tb
    if da ≠ db then da - db else ta - tb

/-- The due-date group of `sortByPriority` in src/unnamed/part_004 (line 277):
0 = overdue, 1 = due today, 2 = future. -/
def dueGroup (d : Int) : Int := if d < 0 then 0 else if d = 0 then 1 else 2

/-- `sortByPriority` from src/unnamed/part_004 (lines 267–284): group first;
inside the overdue group ascending `daysUntilDue`, inside the other groups the
raw due timestamp. -/
def sortByPriorityGroupedCmp (today0 : Int) (a b : FollowupRow) : Int :=
  match a.next_followup_at, b.next_followup_at with
  | none, none => 0
  | none, some _ => 1
  | some _, none => -1
  | some ta, some tb =>
    let da := daysUntilDue today0 ta
    let db := daysUntilDue today0 tb
    let ga := dueGroup da
    let gb := dueGroup db
    if ga ≠ gb then ga - gb
    else if ga = 0 then da - db
    else ta - tb

/-- "a may stay before b" for the leads-page comparator. -/
def leByPriority (today0 : Int) (a b : FollowupRow) : Prop :=
  sortByPriorityCmp today0 a b ≤ 0

instance (today0 : Int) : DecidableRel (leByPriority today0) := fun a b =>
  inferInstanceAs (Decidable (sortByPriorityCmp today0 a b ≤ 0))

/-- "a may stay before b" for the part_004 comparator. -/
def leByPriorityGrouped (today0 : Int) (a b : FollowupRow) : Prop :=
  sortByPriorityGroupedCmp today0 a b ≤ 0

instance (today0 : Int) : DecidableRel (leByPriorityGrouped today0) := fun a b =>
  inferInstanceAs (Decidable (sortByPriorityGroupedCmp today0 a b ≤ 0))

/-- The JavaScript `Array.prototype.sort` call of src/app/leads/page.tsx with
the `sortByPriority` comparator, modelled as the stable insertion sort. -/
def sortFollowupsByPriority (today0 : Int) (l : List FollowupRow) : List FollowupRow :=
  List.insertionSort (leByPriority today0) l

/-- The sort of src/unnamed/part_004 with its grouped comparator. -/
def sortFollowupsGrouped (today0 : Int) (l : List FollowupRow) : List FollowupRow :=
  List.insertionSort (leByPriorityGrouped today0) l

/-- The pairwise ordering the claim asserts for the output list: rows without
a due date last, ascending `daysUntilDue`, ties broken by ascending due
timestamp (group order is implied, since the group is the sign of
`daysUntilDue`). -/
def claimPriorityOrder (today0 : Int) (a b : FollowupRow) : Prop :=
  match a.next_followup_at, b.next_followup_at with
  | _, none => True
  | none, some _ => False
  | some ta, some tb =>
    daysUntilDue today0 ta < daysUntilDue today0 tb ∨
      (daysUntilDue today0 ta = daysUntilDue today0 tb ∧ ta ≤ tb)

/-- The coarser guarantee the part_004 comparator provides: rows without a due
date last and the urgency groups in order (overdue, then due today, then
future). -/
def claimGroupOrder (today0 : Int) (a b : FollowupRow) : Prop :=
  match a.next_followup_at, b.next_followup_at with
  | _, none => True
  | none, some _ => False
  | some ta, some tb =>
    dueGroup (daysUntilDue today0 ta) ≤ dueGroup (daysUntilDue today0 tb)

/-- An overdue follow-up due one hour before today's midnight (instant 0). -/
def lateEveningRow : FollowupRow := ⟨"m1", none, none, some (-3600000), none⟩

/-- An overdue follow-up due much earlier on the same previous local day. -/
def earlyEveningRow : FollowupRow := ⟨"m2", none, none, some (-80000000), none⟩

/-- `isOverdue` from src/app/leads/page.tsx (lines 73–76). -/
def isOverdue (now : Int) (nextAt : Option Int) : Bool :=
  match nextAt with
  | none => false
  | some t => decide (t ≤ now)

/-- The row filter of `load` in src/app/leads/page.tsx (lines 202–210): keep
only rows whose joined meeting exists, is not closed, not discarded, has lead
score 1–3, and whose follow-up is overdue. -/
def loadKeepsRow (now : Int) (r : FollowupRow) : Bool :=
  match r.meeting with
  | none => false
  | some m =>
    if m.is_closed then false
    else if m.discarded_at.isSome then false
    else if m.lead_score < 1 ∨ 3 < m.lead_score then false
    else isOverdue now r.next_followup_at

/-- `load` from src/app/leads/page.tsx (lines 166–213): the database query
keeps rows with a non-null `next_followup_at`, the page then filters with the
eligibility test and sorts with `sortByPriority`. -/
def fetchEligibleFollowUps (now today0 : Int) (rows : List FollowupRow) : List FollowupRow :=
  sortFollowupsByPriority today0
    ((rows.filter fun r => r.next_followup_at.isSome).filter (loadKeepsRow now))

/-- A meeting eligible for follow-up surfacing. -/
def witnessMeeting : MeetingRow :=
  ⟨"m1", 0, none, some "B", some "A", none, none, 2, true, false, false⟩

/-- An overdue follow-up row on `witnessMeeting`. -/
def witnessRow : FollowupRow := ⟨"m1", none, none, some (-1000), some witnessMeeting⟩

/-- A row of the `daily_kpis` table as read by the period aggregation of
src/app/admin/hot-leads/page.tsx (entry dates as civil day numbers). -/
structure DailyKpiRow where
  user_id : String
  entry_date : Int
  appointments_booked : Option Int
deriving Repr, DecidableEq

/-- The persistent state the embedded logic touches: the `meetings` table and
the `daily_kpis` table. -/
structure AppDb where
  meetings : List MeetingRow
  dailyKpis : List DailyKpiRow
deriving Repr, DecidableEq

/-- `discard` from src/app/leads/page.tsx (lines 276–298):
`UPDATE meetings SET discarded_at = now() WHERE id = meetingId`; the
`daily_kpis` table is untouched. -/
def discardMeeting (meetingId : String) (now : Int) (db : AppDb) : AppDb :=
  { db with meetings := db.meetings.map fun m =>
      if m.id = meetingId then { m with discarded_at := some now } else m }

/-- The monthly-outcome query of src/app/admin/hot-leads/page.tsx (lines
938–942): meetings with `meeting_at` in the half-open instant range,
deliberately without a `discarded_at` filter. -/
def meetingsInRange (startMs endMs : Int) (rows : List MeetingRow) : List MeetingRow :=
  rows.filter fun m => decide (startMs ≤ m.meeting_at) && decide (m.meeting_at < endMs)

/-- The occurred-only filter of src/app/admin/hot-leads/page.tsx (lines
946–951 and 1468–1472): keep meetings at or before the current instant. -/
def occurredMeetings (now : Int) (rows : List MeetingRow) : List MeetingRow :=
  rows.filter fun m => decide (m.meeting_at ≤ now)

/-- Monthly outcome counters of the admin overview (lines 953–955). -/
structure MonthlyOutcomes where
  shows : Nat
  movedToSS2 : Nat
  closed : Nat
deriving Repr, DecidableEq

/-- The monthly outcome aggregation of src/app/admin/hot-leads/page.tsx (lines
946–955): count `showed_up`, `moved_to_ss2` and `is_closed` over the occurred
meetings of the range. -/
def monthlyOutcomes (now startMs endMs : Int) (rows : List MeetingRow) : MonthlyOutcomes :=
  let occurred := occurredMeetings now (meetingsInRange startMs endMs rows)
  ⟨(occurred.filter fun m => m.showed_up).length,
    (occurred.filter fun m => m.moved_to_ss2).length,
    (occurred.filter fun m => m.is_closed).length⟩

/-- Period counters of the performance overview (lines 1474–1476). -/
structure PeriodOutcomes where
  meetingsOccurred : Nat
  shows : Nat
  moved : Nat
deriving Repr, DecidableEq

/-- The performance-period aggregation of src/app/admin/hot-leads/page.tsx
(lines 1457–1476, team scope): occurred meetings of the range and their
`showed_up` / `moved_to_ss2` counts, again without a `discarded_at` filter. -/
def periodOutcomes (now startMs endMs : Int) (rows : List MeetingRow) : PeriodOutcomes :=
  let occurred := occurredMeetings now (meetingsInRange startMs endMs rows)
  ⟨occurred.length,
    (occurred.filter fun m => m.showed_up).length,
    (occurred.filter fun m => m.moved_to_ss2).length⟩

/-- The `appointments_booked` period sum over `daily_kpis` of
src/app/admin/hot-leads/page.tsx (lines 1435–1450), missing values as 0. -/
def bookedSum (startDay endDay : Int) (rows : List DailyKpiRow) : Int :=
  ((rows.filter fun r => decide (startDay ≤ r.entry_date) && decide (r.entry_date < endDay)).map
    fun r => r.appointments_booked.getD 0).sum

/-- The hot-leads list query of src/app/admin/hot-leads/page.tsx (lines
958–963): score-3, open, non-discarded meetings. -/
def hotLeadsList (rows : List MeetingRow) : List MeetingRow :=
  rows.filter fun m => decide (m.lead_score = 3) && !m.is_closed && !m.discarded_at.isSome

/-- A discarded copy of `witnessMeeting` for the discard witness. -/
def discardedDb : AppDb := ⟨[witnessMeeting], [⟨"u1", 10, some 4⟩]⟩

/-- Error raised by a conditional update whose precondition no longer holds
(§7 of the spec). -/
inductive ConflictErr where
  | conflict
deriving Repr, DecidableEq

/-- The §3 eligibility invariant of a follow-up row, as a Boolean:
`discardedAt IS NULL AND isClosed = false AND leadScore ∈ {1,2,3} AND
nextFollowUpAt IS NOT NULL`. -/
def eligibleLead (r : FollowupRow) : Bool :=
  match r.meeting with
  | none => false
  | some m =>
    !m.discarded_at.isSome && !m.is_closed && decide (1 ≤ m.lead_score) &&
      decide (m.lead_score ≤ 3) && r.next_followup_at.isSome

/-- Modelled from the spec: the body of the database procedure
`claim_lead_and_push_followup`, which `claim` in src/app/leads/page.tsx (lines
239–255) invokes, is not part of the repository source (it lives in the hosted
database).  Following §4.2 and §6, `claim(lead, actingPersonId)` sets
`owner := actingPersonId` and `nextFollowUpAt := now + 3 days` when the lead
is eligible (§3), as a single all-or-nothing conditional update that reports a
conflict otherwise. -/
def claimLeadAndPushFollowup (now : Int) (actingPersonId : String) (r : FollowupRow) :
    Except ConflictErr FollowupRow :=
  if eligibleLead r then
    Except.ok { r with owner_user_id := some actingPersonId,
                       next_followup_at := some (now + 3 * MS_DAY) }
  else Except.error ConflictErr.conflict

/-- First non-null entry of a most-specific-first fallback chain (the
JavaScript `??` chain). -/
def resolveChain : List (Option String) → Option String
  | [] => none
  | none :: rest => resolveChain rest
  | some v :: _ => some v

/-- `ownerIdForRow` from src/app/leads/page.tsx (lines 97–100):
`owner_user_id ?? attended_by_id ?? booked_by_id` (the page dereferences
`r.meeting!`; a missing meeting resolves to nothing). -/
def ownerIdForRow (r : FollowupRow) : Option String :=
  match r.meeting with
  | none => none
  | some m => (r.owner_user_id.orElse fun _ => m.attended_by_id).orElse fun _ => m.booked_by_id

/-- `ownerIdForMeeting` from src/app/admin/hot-leads/page.tsx (lines 55–57),
and identically `ownerIdForHotLead` there (lines 793–794):
`owner_id ?? booked_by_id ?? booked_calendar_user_id ?? null`. -/
def ownerIdForMeeting (m : MeetingRow) : Option String :=
  (m.owner_id.orElse fun _ => m.booked_by_id).orElse fun _ => m.booked_calendar_user_id

/-- The owner resolution inlined in src/app/hub/page.tsx (line 1077):
`owner_id ?? booked_calendar_user_id ?? booked_by_id`. -/
def hubOwnerId (m : MeetingRow) : Option String :=
  (m.owner_id.orElse fun _ => m.booked_calendar_user_id).orElse fun _ => m.booked_by_id

/-- The four-step most-specific-first chain the claim asserts for every page:
explicit owner, then attended-by, then booked-by, then the denormalized
calendar fallback. -/
def claimOwnerChain (ownerId attended booked calendar : Option String) : Option String :=
  resolveChain [ownerId, attended, booked, calendar]

/-- A meeting with no explicit owner but all three fallback ids set, each to a
different person. -/
def chainMeeting : MeetingRow :=
  ⟨"m9", 0, none, some "B", some "A", some "C", none, 3, false, false, false⟩

/-! ### Theorems -/

/-- Every month has at least 28 days. -/
theorem daysInMonth_ge_28 (y m : Int) : 28 ≤ daysInMonth y m := by
  unfold daysInMonth
  split
  · split <;> omega
  · split <;> omega

/-- C7: for every local date (as a civil day number), `startOfWeekISO_Melb`
lands on a Monday — `getDay` of the result is 1 — and the operation is
idempotent. -/
theorem startOfWeekDays_monday_idempotent (r : Int) :
    jsGetDay (startOfWeekDays r) = 1 ∧
      startOfWeekDays (startOfWeekDays r) = startOfWeekDays r := by
  unfold startOfWeekDays jsGetDay
  omega

/-- C1: the business month computed by `businessMonthStart` /
`businessMonthRangeISO` starts on a day-of-month 26, its exclusive end is the
26th of the following calendar month, the start is strictly before the end,
both are valid dates, the start is in the current calendar month exactly when
the current day-of-month is at least 26 and in the previous one otherwise, and
evaluating on the 25th versus the 26th of one calendar month yields starts one
month apart (the later start is the exclusive end of the earlier month). -/
theorem businessMonth_bounds (d : CalDate) (h : validDate d) :
    (businessMonthStart d).day = 26 ∧
      (businessMonthEndExclusive (businessMonthStart d)).day = 26 ∧
      dateLT (businessMonthStart d) (businessMonthEndExclusive (businessMonthStart d)) ∧
      validDate (businessMonthStart d) ∧
      validDate (businessMonthEndExclusive (businessMonthStart d)) ∧
      (26 ≤ d.day → businessMonthStart d = ⟨d.year, d.month, 26⟩) ∧
      (d.day < 26 → businessMonthStart d =
        (if d.month = 1 then (⟨d.year - 1, 12, 26⟩ : CalDate) else ⟨d.year, d.month - 1, 26⟩)) ∧
      businessMonthStart ⟨d.year, d.month, 26⟩ =
        businessMonthEndExclusive (businessMonthStart ⟨d.year, d.month, 25⟩) := by
  obtain ⟨y, m, dd⟩ := d
  obtain ⟨h1, h2, h3, h4⟩ := h
  have e1 := daysInMonth_ge_28 y m
  have e2 := daysInMonth_ge_28 (y - 1) 12
  have e3 := daysInMonth_ge_28 y (m - 1)
  have e4 := daysInMonth_ge_28 (y + 1) 1
  have e5 := daysInMonth_ge_28 y (m + 1)
  have e6 := daysInMonth_ge_28 y 1
  simp only [businessMonthStart, businessMonthEndExclusive, validDate, dateLT] at *
  split_ifs <;> simp_all [CalDate.mk.injEq] <;> omega

/-- Witness: the business-month theorem applied to the concrete date
2024-03-10 (whose business month is 2024-02-26 to 2024-03-26). -/
theorem businessMonth_bounds_witness :
    (businessMonthStart ⟨2024, 3, 10⟩).day = 26 ∧
      (businessMonthEndExclusive (businessMonthStart ⟨2024, 3, 10⟩)).day = 26 ∧
      dateLT (businessMonthStart ⟨2024, 3, 10⟩)
        (businessMonthEndExclusive (businessMonthStart ⟨2024, 3, 10⟩)) ∧
      validDate (businessMonthStart ⟨2024, 3, 10⟩) ∧
      validDate (businessMonthEndExclusive (businessMonthStart ⟨2024, 3, 10⟩)) ∧
      ((26 : Int) ≤ 10 → businessMonthStart ⟨2024, 3, 10⟩ = ⟨2024, 3, 26⟩) ∧
      ((10 : Int) < 26 → businessMonthStart ⟨2024, 3, 10⟩ =
        (if (3 : Int) = 1 then (⟨2023, 12, 26⟩ : CalDate) else ⟨2024, 2, 26⟩)) ∧
      businessMonthStart ⟨2024, 3, 26⟩ =
        businessMonthEndExclusive (businessMonthStart ⟨2024, 3, 25⟩) :=
  businessMonth_bounds ⟨2024, 3, 10⟩ (by decide)

/-- The gap in days between the 26th of one calendar month and the 26th of the
following month is the length of the first month. -/
theorem epochDays_nextMonth (s : CalDate) (h1 : 1 ≤ s.month) (h2 : s.month ≤ 12)
    (h3 : s.day = 26) :
    epochDays (businessMonthEndExclusive s) - epochDays s = daysInMonth s.year s.month := by
  obtain ⟨y, m, dd⟩ := s
  simp only at h1 h2 h3
  subst h3
  simp only [businessMonthEndExclusive, epochDays, daysInMonth, isLeapYear,
    Bool.and_eq_true, Bool.or_eq_true, beq_iff_eq, bne_iff_ne]
  interval_cases m <;> simp_all <;> (try split_ifs) <;> omega

/-- The business-month start is the 26th of a well-formed month. -/
theorem businessMonthStart_shape (d : CalDate) (h : validDate d) :
    1 ≤ (businessMonthStart d).month ∧ (businessMonthStart d).month ≤ 12 ∧
      (businessMonthStart d).day = 26 := by
  obtain ⟨y, m, dd⟩ := d
  obtain ⟨h1, h2, h3, h4⟩ := h
  simp only [businessMonthStart]
  split_ifs <;> simp_all <;> omega

/-- A business month always spans at least four weeks. -/
theorem weeksInBusinessMonth_ge_4 (d : CalDate) (h : validDate d) :
    4 ≤ weeksInBusinessMonth d := by
  obtain ⟨hm1, hm2, hday⟩ := businessMonthStart_shape d h
  have key := epochDays_nextMonth (businessMonthStart d) hm1 hm2 hday
  have h28 : (28 : ℤ) ≤ daysInMonth (businessMonthStart d).year (businessMonthStart d).month :=
    daysInMonth_ge_28 _ _
  unfold weeksInBusinessMonth
  rw [le_div_iff (by norm_num : (0 : ℚ) < 7)]
  have hmax : (28 : ℤ) ≤ max 1 (epochDays (businessMonthEndExclusive (businessMonthStart d)) -
      epochDays (businessMonthStart d)) := le_max_of_le_right (by omega)
  calc (4 : ℚ) * 7 = ((28 : ℤ) : ℚ) := by norm_num
  _ ≤ _ := by exact_mod_cast hmax

/-- C8: with `weeks` the business-month length in weeks, converting a positive
integer weekly target to a monthly target with `monthlyFromWeekly` and back
with `weeklyFromMonthly` never decreases the target and overshoots by at most
one: `w ≤ weeklyFromMonthly (monthlyFromWeekly w) ≤ w + 1`. -/
theorem weekly_monthly_roundtrip (d : CalDate) (h : validDate d) (w : Int) (hw : 0 < w) :
    w ≤ weeklyFromMonthly ((monthlyFromWeekly (w : ℚ) d : Int) : ℚ) d ∧
      weeklyFromMonthly ((monthlyFromWeekly (w : ℚ) d : Int) : ℚ) d ≤ w + 1 := by
  have hq4 : (4 : ℚ) ≤ weeksInBusinessMonth d := weeksInBusinessMonth_ge_4 d h
  have hq0 : (0 : ℚ) < weeksInBusinessMonth d := lt_of_lt_of_le (by norm_num) hq4
  have hw1 : (1 : ℚ) ≤ (w : ℚ) := by exact_mod_cast hw
  have hwnot : ¬ ((w : ℚ) ≤ 0) := by linarith
  have hm : monthlyFromWeekly (w : ℚ) d = round ((w : ℚ) * weeksInBusinessMonth d) := by
    simp [monthlyFromWeekly, hwnot]
  rw [hm]
  set q : ℚ := weeksInBusinessMonth d with hqdef
  set m : Int := round ((w : ℚ) * q) with hmdef
  have hre : m = ⌊(w : ℚ) * q + 1 / 2⌋ := round_eq ((w : ℚ) * q)
  have hub : (m : ℚ) ≤ (w : ℚ) * q + 1 / 2 := by
    rw [hre]; exact Int.floor_le _
  have hlb : (w : ℚ) * q - 1 / 2 < (m : ℚ) := by
    have := Int.lt_floor_add_one ((w : ℚ) * q + 1 / 2)
    rw [← hre] at this
    linarith
  have hwq1 : (1 : ℚ) ≤ (w : ℚ) * q := by nlinarith
  have hmposq : (0 : ℚ) < (m : ℚ) := by linarith
  have hmpos : 0 < m := by exact_mod_cast hmposq
  have hmnot : ¬ ((m : Int) : ℚ) ≤ 0 := by linarith
  have hwfm : weeklyFromMonthly ((m : Int) : ℚ) d = ⌈((m : Int) : ℚ) / q⌉ := by
    simp only [weeklyFromMonthly, hmnot, if_false, hqdef]
  rw [hwfm]
  constructor
  · have h1 : ((w : ℚ) - 1) * q < (m : ℚ) := by nlinarith
    have h2 : ((w : ℚ) - 1) < (m : ℚ) / q := by rwa [lt_div_iff hq0]
    have h3 : ((w : ℚ) - 1) < (⌈(m : ℚ) / q⌉ : ℚ) := lt_of_lt_of_le h2 (Int.le_ceil _)
    have h4 : ((w - 1 : Int) : ℚ) < (⌈(m : ℚ) / q⌉ : ℚ) := by push_cast; linarith
    have h5 : (w - 1 : Int) < ⌈(m : ℚ) / q⌉ := by exact_mod_cast h4
    omega
  · rw [Int.ceil_le]
    rw [div_le_iff hq0]
    push_cast
    nlinarith

/-- Witness: the round trip of a weekly target of 5, evaluated on 2024-03-10
(a 29-day business month, so weeks = 29/7). -/
theorem weekly_monthly_roundtrip_witness :
    (5 : Int) ≤ weeklyFromMonthly ((monthlyFromWeekly ((5 : Int) : ℚ) ⟨2024, 3, 10⟩ : Int) : ℚ)
        ⟨2024, 3, 10⟩ ∧
      weeklyFromMonthly ((monthlyFromWeekly ((5 : Int) : ℚ) ⟨2024, 3, 10⟩ : Int) : ℚ)
        ⟨2024, 3, 10⟩ ≤ 5 + 1 :=
  weekly_monthly_roundtrip ⟨2024, 3, 10⟩ (by decide) 5 (by decide)

/-- `dueText` renders exactly the class `classifyDue` computes. -/
theorem dueText_matches_classifyDue (days : Int) :
    dueText days =
      (match classifyDue days with
        | DueClass.overdue =>
          "Overdue by " ++ toString days.natAbs ++ " day" ++ (if days.natAbs = 1 then "" else "s")
        | DueClass.dueToday => "Due today"
        | DueClass.dueInFuture =>
          "Due in " ++ toString days ++ " day" ++ (if days = 1 then "" else "s")) := by
  unfold dueText classifyDue
  split_ifs <;> rfl

/-- C5 (amended): when the UTC offset at the due instant equals the offset at
today's midnight (no DST transition in between), `daysUntilDue` equals the
specified local-date difference; and its sign matches the
overdue/due-today/future classification exactly at the boundary. -/
theorem daysUntilDue_eq_localDateDiff (off : Int → Int) (now today0 due : Int)
    (hmid : (today0 + off today0) % MS_DAY = 0)
    (htoday : localDayNumber off today0 = localDayNumber off now)
    (hoff : off due = off today0) :
    daysUntilDue today0 due = specDaysUntilDue off due now ∧
      (classifyDue (daysUntilDue today0 due) = DueClass.overdue ↔ daysUntilDue today0 due < 0) ∧
      (classifyDue (daysUntilDue today0 due) = DueClass.dueToday ↔ daysUntilDue today0 due = 0) ∧
      (classifyDue (daysUntilDue today0 due) = DueClass.dueInFuture ↔
        0 < daysUntilDue today0 due) := by
  refine ⟨?_, ?_, ?_, ?_⟩
  · unfold daysUntilDue specDaysUntilDue localDayNumber MS_DAY at *
    rw [hoff]
    omega
  all_goals unfold classifyDue
  all_goals split_ifs <;> simp_all <;> omega

/-- A witness instantiating `daysUntilDue_eq_localDateDiff` at a fixed
UTC+0 offset schedule, today's midnight at instant 0 and a due instant two
local days later. -/
theorem daysUntilDue_eq_localDateDiff_witness :
    daysUntilDue 0 180000000 = specDaysUntilDue (fun _ => 0) 180000000 3600000 ∧
      daysUntilDue 0 180000000 = 2 := by
  refine ⟨(daysUntilDue_eq_localDateDiff (fun _ => 0) 3600000 0 180000000
    (by decide) (by decide) rfl).1, by decide⟩

/-- C5 counterexample: across a DST spring-forward the claimed formula fails.
Today's local midnight is instant 0 (a genuine local midnight under
`dstShiftOffset`), the due instant 84600000 is 00:30 local of the next civil
day, yet the code computes 0 days until due while the claimed local-date
difference is 1. -/
theorem daysUntilDue_dst_counterexample :
    (0 + dstShiftOffset 0) % MS_DAY = 0 ∧
      daysUntilDue 0 84600000 = 0 ∧
      specDaysUntilDue dstShiftOffset 84600000 0 = 1 ∧
      daysUntilDue 0 84600000 ≠ specDaysUntilDue dstShiftOffset 84600000 0 := by
  refine ⟨by decide, by decide, by decide, by decide⟩

/-- The leads-page comparator is total. -/
theorem leByPriority_total (t : Int) (a b : FollowupRow) :
    leByPriority t a b ∨ leByPriority t b a := by
  unfold leByPriority sortByPriorityCmp
  rcases a.next_followup_at with _ | ta <;> rcases b.next_followup_at with _ | tb <;>
    dsimp only <;> first | (split_ifs <;> omega) | omega

/-- The leads-page comparator is transitive. -/
theorem leByPriority_trans (t : Int) (a b c : FollowupRow) :
    leByPriority t a b → leByPriority t b c → leByPriority t a c := by
  unfold leByPriority sortByPriorityCmp
  rcases a.next_followup_at with _ | ta <;> rcases b.next_followup_at with _ | tb <;>
    rcases c.next_followup_at with _ | tc <;> dsimp only <;> intro h1 h2 <;>
    first | (split_ifs at h1 h2 ⊢ <;> omega) | omega

/-- Being kept in place by the leads-page comparator entails the claimed
priority order. -/
theorem leByPriority_imp_claimOrder (t : Int) (a b : FollowupRow) :
    leByPriority t a b → claimPriorityOrder t a b := by
  unfold leByPriority sortByPriorityCmp claimPriorityOrder
  rcases a.next_followup_at with _ | ta <;> rcases b.next_followup_at with _ | tb <;>
    dsimp only <;> intro h1 <;> first | (split_ifs at h1 <;> omega) | omega | trivial

/-- The part_004 comparator is total. -/
theorem leByPriorityGrouped_total (t : Int) (a b : FollowupRow) :
    leByPriorityGrouped t a b ∨ leByPriorityGrouped t b a := by
  unfold leByPriorityGrouped sortByPriorityGroupedCmp
  rcases a.next_followup_at with _ | ta <;> rcases b.next_followup_at with _ | tb <;>
    dsimp only <;> first | (split_ifs <;> omega) | omega

/-- The part_004 comparator is transitive. -/
theorem leByPriorityGrouped_trans (t : Int) (a b c : FollowupRow) :
    leByPriorityGrouped t a b → leByPriorityGrouped t b c → leByPriorityGrouped t a c := by
  unfold leByPriorityGrouped sortByPriorityGroupedCmp
  rcases a.next_followup_at with _ | ta <;> rcases b.next_followup_at with _ | tb <;>
    rcases c.next_followup_at with _ | tc <;> dsimp only <;> intro h1 h2 <;>
    first | (split_ifs at h1 h2 ⊢ <;> omega) | omega

/-- Being kept in place by the part_004 comparator entails the group order. -/
theorem leByPriorityGrouped_imp_groupOrder (t : Int) (a b : FollowupRow) :
    leByPriorityGrouped t a b → claimGroupOrder t a b := by
  unfold leByPriorityGrouped sortByPriorityGroupedCmp claimGroupOrder
  rcases a.next_followup_at with _ | ta <;> rcases b.next_followup_at with _ | tb <;>
    dsimp only <;> intro h1 <;> first | (split_ifs at h1 ⊢ <;> omega) | omega | trivial

/-- C4 (amended): the leads-page `sortByPriority` orders any list by
ascending `daysUntilDue` with ties broken by ascending due timestamp and
no-due-date rows last (hence Overdue before DueToday before DueInFuture); the
part_004 variant guarantees the group order with no-due-date rows last, but
inside the Overdue group it leaves ties on `daysUntilDue` in input order
instead of breaking them by timestamp. -/
theorem sortByPriority_ordering (today0 : Int) (l : List FollowupRow) :
    (sortFollowupsByPriority today0 l).Pairwise (claimPriorityOrder today0) ∧
      (sortFollowupsGrouped today0 l).Pairwise (claimGroupOrder today0) := by
  constructor
  · haveI : IsTotal FollowupRow (leByPriority today0) := ⟨leByPriority_total today0⟩
    haveI : IsTrans FollowupRow (leByPriority today0) := ⟨leByPriority_trans today0⟩
    exact (List.sorted_insertionSort (leByPriority today0) l).imp
      (fun h => leByPriority_imp_claimOrder today0 _ _ h)
  · haveI : IsTotal FollowupRow (leByPriorityGrouped today0) :=
      ⟨leByPriorityGrouped_total today0⟩
    haveI : IsTrans FollowupRow (leByPriorityGrouped today0) :=
      ⟨leByPriorityGrouped_trans today0⟩
    exact (List.sorted_insertionSort (leByPriorityGrouped today0) l).imp
      (fun h => leByPriorityGrouped_imp_groupOrder today0 _ _ h)

/-- C4 counterexample: both rows are overdue by one day (`daysUntilDue = -1`),
so the part_004 `sortByPriority` comparator returns 0 and the stable sort
keeps the later-due row first — the output violates the claimed
earlier-due-timestamp-first tie-break. -/
theorem sortByPriority_tie_counterexample :
    daysUntilDue 0 (-3600000) = -1 ∧
      daysUntilDue 0 (-80000000) = -1 ∧
      sortFollowupsGrouped 0 [lateEveningRow, earlyEveningRow] =
        [lateEveningRow, earlyEveningRow] ∧
      ¬ (sortFollowupsGrouped 0 [lateEveningRow, earlyEveningRow]).Pairwise
        (claimPriorityOrder 0) := by
  refine ⟨by decide, by decide, by decide, ?_⟩
  intro hp
  have heq : sortFollowupsGrouped 0 [lateEveningRow, earlyEveningRow] =
      [lateEveningRow, earlyEveningRow] := by decide
  rw [heq] at hp
  have h := (List.pairwise_cons.mp hp).1 earlyEveningRow (by simp)
  revert h
  show ¬ (daysUntilDue 0 (-3600000) < daysUntilDue 0 (-80000000) ∨
    (daysUntilDue 0 (-3600000) = daysUntilDue 0 (-80000000) ∧ (-3600000 : Int) ≤ -80000000))
  decide

/-- Membership in the surfaced list is membership in the source rows plus the
query filter plus the page filter. -/
theorem mem_fetchEligibleFollowUps (now today0 : Int) (rows : List FollowupRow)
    (r : FollowupRow) :
    r ∈ fetchEligibleFollowUps now today0 rows ↔
      r ∈ rows ∧ r.next_followup_at.isSome = true ∧ loadKeepsRow now r = true := by
  unfold fetchEligibleFollowUps sortFollowupsByPriority
  rw [(List.perm_insertionSort (leByPriority today0) _).mem_iff]
  simp only [List.mem_filter, and_assoc]

/-- C3: every row surfaced by the leads page satisfies the §3 eligibility
invariant — the joined meeting exists and is neither discarded nor closed, the
lead score is in {1,2,3}, and the follow-up has a due date.  In particular a
discarded lead never appears, however overdue its follow-up. -/
theorem fetchEligibleFollowUps_invariant (now today0 : Int) (rows : List FollowupRow)
    (r : FollowupRow) (hr : r ∈ fetchEligibleFollowUps now today0 rows) :
    ∃ m, r.meeting = some m ∧ m.discarded_at = none ∧ m.is_closed = false ∧
      (m.lead_score = 1 ∨ m.lead_score = 2 ∨ m.lead_score = 3) ∧
      r.next_followup_at ≠ none := by
  obtain ⟨-, hsome, hkeep⟩ := (mem_fetchEligibleFollowUps now today0 rows r).mp hr
  unfold loadKeepsRow at hkeep
  rcases hm : r.meeting with _ | m
  · rw [hm] at hkeep
    simp at hkeep
  · rw [hm] at hkeep
    dsimp only at hkeep
    split_ifs at hkeep with hclosed hdisc hscore
    refine ⟨m, rfl, ?_, ?_, ?_, ?_⟩
    · exact Option.not_isSome_iff_eq_none.mp (by simp [hdisc])
    · exact Bool.eq_false_iff.mpr hclosed
    · omega
    · intro hn
      rw [hn] at hsome
      simp at hsome

/-- Witness: the invariant theorem applied to a concrete surfaced row. -/
theorem fetchEligibleFollowUps_invariant_witness :
    ∃ m, witnessRow.meeting = some m ∧ m.discarded_at = none ∧ m.is_closed = false ∧
      (m.lead_score = 1 ∨ m.lead_score = 2 ∨ m.lead_score = 3) ∧
      witnessRow.next_followup_at ≠ none :=
  fetchEligibleFollowUps_invariant 0 0 [witnessRow] witnessRow (by decide)

/-- Filtering by a predicate that ignores `discarded_at` commutes with the
discard update. -/
theorem filter_discardMap (g : MeetingRow → Bool)
    (hg : ∀ m t', g { m with discarded_at := some t' } = g m)
    (meetingId : String) (t : Int) (rows : List MeetingRow) :
    (rows.map fun m => if m.id = meetingId then { m with discarded_at := some t } else m).filter g
      = ((rows.filter g).map fun m =>
          if m.id = meetingId then { m with discarded_at := some t } else m) := by
  induction rows with
  | nil => rfl
  | cons a l ih =>
    simp only [List.map_cons, List.filter_cons]
    by_cases ha : a.id = meetingId
    · rw [if_pos ha, hg]
      cases hga : g a <;> simp [hga, ih, ha]
    · rw [if_neg ha]
      cases hga : g a <;> simp [hga, ih, ha]

/-- C6: discarding a lead stamps `discarded_at` with the current instant on
its meeting rows, removes the lead from the leads follow-up view and from the
hot-leads list, and leaves every KPI aggregate unchanged: the outcome counters
and the booked sum read raw rows without a `discarded_at` filter, so a
discarded meeting contributes exactly as before discarding. -/
theorem discard_views_and_kpis (meetingId : String) (t now startMs endMs dkStart dkEnd : Int)
    (db : AppDb) :
    (∀ m ∈ (discardMeeting meetingId t db).meetings, m.id = meetingId →
        m.discarded_at = some t) ∧
      (∀ now2 today0 rows r m, r.meeting = some m → m.discarded_at ≠ none →
        r ∉ fetchEligibleFollowUps now2 today0 rows) ∧
      (∀ m ∈ hotLeadsList (discardMeeting meetingId t db).meetings, m.id ≠ meetingId) ∧
      monthlyOutcomes now startMs endMs (discardMeeting meetingId t db).meetings =
        monthlyOutcomes now startMs endMs db.meetings ∧
      periodOutcomes now startMs endMs (discardMeeting meetingId t db).meetings =
        periodOutcomes now startMs endMs db.meetings ∧
      bookedSum dkStart dkEnd (discardMeeting meetingId t db).dailyKpis =
        bookedSum dkStart dkEnd db.dailyKpis := by
  have hrange : ∀ (m : MeetingRow) (t' : Int),
      (decide (startMs ≤ ({ m with discarded_at := some t' } : MeetingRow).meeting_at) &&
        decide (({ m with discarded_at := some t' } : MeetingRow).meeting_at < endMs)) =
      (decide (startMs ≤ m.meeting_at) && decide (m.meeting_at < endMs)) := fun _ _ => rfl
  have hocc : ∀ (m : MeetingRow) (t' : Int),
      decide (({ m with discarded_at := some t' } : MeetingRow).meeting_at ≤ now) =
        decide (m.meeting_at ≤ now) := fun _ _ => rfl
  have hkey : occurredMeetings now (meetingsInRange startMs endMs
        (discardMeeting meetingId t db).meetings) =
      (occurredMeetings now (meetingsInRange startMs endMs db.meetings)).map
        fun m => if m.id = meetingId then { m with discarded_at := some t } else m := by
    unfold discardMeeting meetingsInRange occurredMeetings
    rw [filter_discardMap _ (fun m t' => hrange m t') meetingId t db.meetings]
    rw [filter_discardMap _ (fun m t' => hocc m t') meetingId t]
  refine ⟨?_, ?_, ?_, ?_, ?_, rfl⟩
  · intro m hm hid
    unfold discardMeeting at hm
    simp only [List.mem_map] at hm
    obtain ⟨m0, _, rfl⟩ := hm
    by_cases h0 : m0.id = meetingId
    · simp [h0]
    · rw [if_neg h0] at hid ⊢
      exact absurd hid h0
  · intro now2 today0 rows r m hm hd hr
    obtain ⟨-, -, hkeep⟩ := (mem_fetchEligibleFollowUps now2 today0 rows r).mp hr
    unfold loadKeepsRow at hkeep
    rw [hm] at hkeep
    dsimp only at hkeep
    split_ifs at hkeep with hclosed hdisc hscore
    exact hd (Option.not_isSome_iff_eq_none.mp (by simp [hdisc]))
  · intro m hm
    unfold hotLeadsList discardMeeting at hm
    simp only [List.mem_filter, List.mem_map] at hm
    obtain ⟨⟨m0, -, rfl⟩, hflt⟩ := hm
    by_cases h0 : m0.id = meetingId
    · rw [if_pos h0] at hflt
      simp at hflt
    · rw [if_neg h0]
      exact h0
  · unfold monthlyOutcomes
    dsimp only
    rw [hkey]
    rw [filter_discardMap (fun m => m.showed_up) (fun _ _ => rfl) meetingId t,
      filter_discardMap (fun m => m.moved_to_ss2) (fun _ _ => rfl) meetingId t,
      filter_discardMap (fun m => m.is_closed) (fun _ _ => rfl) meetingId t]
    simp [List.length_map]
  · unfold periodOutcomes
    dsimp only
    rw [hkey]
    rw [filter_discardMap (fun m => m.showed_up) (fun _ _ => rfl) meetingId t,
      filter_discardMap (fun m => m.moved_to_ss2) (fun _ _ => rfl) meetingId t]
    simp [List.length_map]

/-- Witness: the discard theorem applied to a concrete one-meeting database. -/
theorem discard_views_and_kpis_witness :
    (∀ m ∈ (discardMeeting "m1" 77 discardedDb).meetings, m.id = "m1" →
        m.discarded_at = some 77) ∧
      monthlyOutcomes 50 0 100 (discardMeeting "m1" 77 discardedDb).meetings =
        monthlyOutcomes 50 0 100 discardedDb.meetings := by
  have h := discard_views_and_kpis "m1" 77 50 0 100 0 100 discardedDb
  exact ⟨h.1, h.2.2.2.1⟩

/-- C10: a meeting scheduled strictly in the future contributes nothing to
the period outcome aggregates, even when its instant lies inside the
reporting range: adding it to the table leaves all outcome counters
unchanged until it has occurred. -/
theorem futureMeeting_contributes_zero (now startMs endMs : Int) (m : MeetingRow)
    (rows : List MeetingRow) (h : now < m.meeting_at) :
    monthlyOutcomes now startMs endMs (m :: rows) = monthlyOutcomes now startMs endMs rows ∧
      periodOutcomes now startMs endMs (m :: rows) = periodOutcomes now startMs endMs rows := by
  have hocc : decide (m.meeting_at ≤ now) = false := by
    simp only [decide_eq_false_iff_not]
    omega
  have hkey : occurredMeetings now (meetingsInRange startMs endMs (m :: rows)) =
      occurredMeetings now (meetingsInRange startMs endMs rows) := by
    unfold meetingsInRange occurredMeetings
    rw [List.filter_cons]
    split_ifs with hr
    · rw [List.filter_cons, hocc]
      simp
    · rfl
  constructor
  · unfold monthlyOutcomes
    rw [hkey]
  · unfold periodOutcomes
    rw [hkey]

/-- Witness: a future meeting inside the range leaves the counters of a
one-row table unchanged. -/
theorem futureMeeting_contributes_zero_witness :
    monthlyOutcomes 50 0 100 [{ witnessMeeting with meeting_at := 80 }, witnessMeeting] =
      monthlyOutcomes 50 0 100 [witnessMeeting] :=
  (futureMeeting_contributes_zero 50 0 100 { witnessMeeting with meeting_at := 80 }
    [witnessMeeting] (by decide)).1

/-- C2: claiming an eligible lead always succeeds — also when the acting
person is already the owner — and the result has the acting person as owner
and the next follow-up exactly three days after the current instant,
regardless of the prior owner. -/
theorem claim_sets_owner_and_due (now : Int) (acting : String) (r : FollowupRow)
    (h : eligibleLead r = true) :
    claimLeadAndPushFollowup now acting r =
        Except.ok { r with owner_user_id := some acting,
                           next_followup_at := some (now + 3 * MS_DAY) } ∧
      claimLeadAndPushFollowup now acting r ≠ Except.error ConflictErr.conflict := by
  unfold claimLeadAndPushFollowup
  rw [if_pos h]
  exact ⟨rfl, by simp⟩

/-- Witness: claiming a concrete eligible lead previously owned by "X", acting
as "Y", succeeds and moves the follow-up three days out. -/
theorem claim_sets_owner_and_due_witness :
    claimLeadAndPushFollowup 1000 "Y" { witnessRow with owner_user_id := some "X" } =
      Except.ok { witnessRow with owner_user_id := some "Y",
                                  next_followup_at := some (1000 + 3 * MS_DAY) } :=
  (claim_sets_owner_and_due 1000 "Y" { witnessRow with owner_user_id := some "X" }
    (by decide)).1

/-- C9 counterexample: the pages do not share the claimed four-step
resolution order.  On a meeting with no explicit owner and attended-by "A",
booked-by "B", calendar fallback "C", the claimed chain resolves "A", but the
admin hot-leads page resolves "B" (it skips `attended_by_id`), the hub page
resolves "C" (it prefers the calendar fallback over `booked_by_id`), and the
leads page resolves "A" (it never consults the calendar fallback). -/
theorem owner_resolution_counterexample :
    claimOwnerChain chainMeeting.owner_id chainMeeting.attended_by_id
        chainMeeting.booked_by_id chainMeeting.booked_calendar_user_id = some "A" ∧
      ownerIdForMeeting chainMeeting = some "B" ∧
      hubOwnerId chainMeeting = some "C" ∧
      ownerIdForRow ⟨"m9", none, none, none, some chainMeeting⟩ = some "A" ∧
      ownerIdForMeeting chainMeeting ≠
        claimOwnerChain chainMeeting.owner_id chainMeeting.attended_by_id
          chainMeeting.booked_by_id chainMeeting.booked_calendar_user_id := by
  refine ⟨rfl, rfl, rfl, rfl, by decide⟩

/-- C9 (amended): each page resolves the shown owner most-specific-first
through a fallback chain that starts with the explicit owner field — whenever
it is set every page shows it — but the fallback tails differ per page: the
leads page falls back to attended-by then booked-by, the admin hot-leads page
to booked-by then the calendar id, and the hub page to the calendar id then
booked-by. -/
theorem owner_resolution_chains :
    (∀ r m, r.meeting = some m →
        ownerIdForRow r = resolveChain [r.owner_user_id, m.attended_by_id, m.booked_by_id]) ∧
      (∀ m, ownerIdForMeeting m =
        resolveChain [m.owner_id, m.booked_by_id, m.booked_calendar_user_id]) ∧
      (∀ m, hubOwnerId m =
        resolveChain [m.owner_id, m.booked_calendar_user_id, m.booked_by_id]) ∧
      (∀ r m o, r.meeting = some m → r.owner_user_id = some o → ownerIdForRow r = some o) ∧
      (∀ m o, m.owner_id = some o → ownerIdForMeeting m = some o ∧ hubOwnerId m = some o) := by
  refine ⟨?_, ?_, ?_, ?_, ?_⟩
  · intro r m hm
    unfold ownerIdForRow
    rw [hm]
    dsimp only
    rcases r.owner_user_id with _ | o <;> rcases m.attended_by_id with _ | a <;>
      rcases m.booked_by_id with _ | b <;> rfl
  · intro m
    unfold ownerIdForMeeting
    rcases m.owner_id with _ | o <;> rcases m.booked_by_id with _ | b <;>
      rcases m.booked_calendar_user_id with _ | c <;> rfl
  · intro m
    unfold hubOwnerId
    rcases m.owner_id with _ | o <;> rcases m.booked_calendar_user_id with _ | c <;>
      rcases m.booked_by_id with _ | b <;> rfl
  · intro r m o hm ho
    unfold ownerIdForRow
    rw [hm]
    dsimp only
    rw [ho]
    rfl
  · intro m o ho
    unfold ownerIdForMeeting hubOwnerId
    rw [ho]
    exact ⟨rfl, rfl⟩

/-- Witness: with the explicit owner set to "X", all three pages resolve "X"
on concrete rows. -/
theorem owner_resolution_chains_witness :
    ownerIdForRow ⟨"m9", some "X", none, none, some chainMeeting⟩ = some "X" ∧
      ownerIdForMeeting { chainMeeting with owner_id := some "X" } = some "X" ∧
      hubOwnerId { chainMeeting with owner_id := some "X" } = some "X" := by
  have h := owner_resolution_chains
  exact ⟨h.2.2.2.1 ⟨"m9", some "X", none, none, some chainMeeting⟩ chainMeeting "X" rfl rfl,
    (h.2.2.2.2 { chainMeeting with owner_id := some "X" } "X" rfl).1,
    (h.2.2.2.2 { chainMeeting with owner_id := some "X" } "X" rfl).2⟩

end ImperialApp
